import Mathlib

/-!
Shallow embedding of the credential-store, account-registry, auth-flow and
mailbox-cache subsystem of a multi-account Gmail MCP server
(src/auth/tokenManager.ts, src/auth/paths.ts, src/services/MailboxRegistry.ts,
src/auth/server.ts, src/handlers/BaseToolHandler.ts), together with proofs
about the behaviour that the natural-language specification describes.
-/

namespace GmailMcp

/-- JSON values as stored in the token file. Object fields are an association
list in insertion order, mirroring JavaScript object key order. A key that is
absent models a JavaScript `undefined` property read. -/
inductive Json where
  | null
  | str (s : String)
  | num (n : Int)
  | bool (b : Bool)
  | obj (fields : List (String × Json))

/-- Association-list lookup by string key (JavaScript property read /
`Map.get`); returns the first binding. -/
def lookupStr {α : Type} : List (String × α) → String → Option α
  | [], _ => none
  | (k, v) :: rest, key => if k = key then some v else lookupStr rest key

/-- Association-list update by string key (JavaScript property assignment /
`Map.set`): replaces the binding in place if the key exists, appends
otherwise. -/
def setStr {α : Type} : List (String × α) → String → α → List (String × α)
  | [], k, v => [(k, v)]
  | (k2, v2) :: rest, k, v =>
    if k2 = k then (k, v) :: rest else (k2, v2) :: setStr rest k v

/-- Association-list deletion by string key (JavaScript `delete obj[k]` /
`Map.delete`). -/
def removeStr {α : Type} (l : List (String × α)) (k : String) : List (String × α) :=
  l.filter (fun e => e.1 != k)

/-- JavaScript truthiness of a JSON value. -/
def truthyV : Json → Bool
  | .null => false
  | .str s => s != ""
  | .num n => n != 0
  | .bool b => b
  | .obj _ => true

/-- JavaScript truthiness of a possibly-undefined value. -/
def truthy? : Option Json → Bool
  | none => false
  | some v => truthyV v

/-- String lowercasing as by `String.prototype.toLowerCase`; account ids are
ASCII, for which this is a per-character map. -/
def toLowerStr (s : String) : String :=
  ⟨s.data.map Char.toLower⟩

/-- Property read `v[k]` on a JSON value; non-objects have no own properties
of interest here, so the read yields undefined. -/
def Json.getField? : Json → String → Option Json
  | .obj fs, k => lookupStr fs k
  | _, _ => none

/-- Object fields of a JSON value, as used by a spread `{...v}`: spreading a
non-object contributes no fields. -/
def fieldsOf : Json → List (String × Json)
  | .obj fs => fs
  | _ => []

/-- JavaScript object spread `{...a, ...b}` on field lists: fields of b are
written over a, keeping the position of keys already present. -/
def spreadFields (a b : List (String × Json)) : List (String × Json) :=
  b.foldl (fun acc kv => setStr acc kv.1 kv.2) a

/-- Property assignment `v[k] = x` on a JSON value; assignment to a primitive
leaves it unchanged (no claim exercises that branch). -/
def setJ : Json → String → Json → Json
  | .obj fs, k, v => .obj (setStr fs k v)
  | other, _, _ => other

/-- State of the on-disk token file: missing, unparseable text, or a parsed
JSON document. -/
inductive TokenFile where
  | absent
  | corrupt
  | json (v : Json)

/-- Whether `fs.access` on the token path succeeds. -/
def TokenFile.exists? : TokenFile → Bool
  | .absent => false
  | _ => true

/-- Errors thrown while reading or writing the token file. A JSON
`SyntaxError` carries no `code` property; filesystem errors carry a string
code such as ENOENT; `thrown` is a plain `new Error(message)`. -/
inductive JsError where
  | parseError
  | fsError (code : String)
  | thrown (msg : String)

/-- Whether the thrown error object has a `code` own property
(the test `'code' in error`). -/
def errHasCode : JsError → Bool
  | .fsError _ => true
  | _ => false

/-- Value of the `code` property when present. -/
def errCode : JsError → String
  | .fsError c => c
  | _ => ""

/-- Embedding of `TokenManager.loadMultiAccountTokens`: reads and parses the
token file; ENOENT yields an empty mapping; a file whose top level has a
truthy `access_token` or `refresh_token` is the legacy single-account shape
and is wrapped under the default account id `normal` and persisted (the
returned Bool records whether that migration write happened); otherwise the
parsed document is returned as the multi-account mapping unchanged. The
returned TokenFile is the resulting on-disk state. -/
def loadMultiAccountTokens : TokenFile → Except JsError (Json × TokenFile × Bool)
  | .absent => .ok (.obj [], .absent, false)
  | .corrupt => .error .parseError
  | .json parsed =>
    if truthy? (parsed.getField? "access_token") || truthy? (parsed.getField? "refresh_token") then
      let multi := Json.obj [("normal", parsed)]
      .ok (multi, .json multi, true)
    else
      .ok (parsed, .json parsed, false)

/-- Persisted effect of the `tokens` refresh listener installed by
`TokenManager.setupTokenRefreshForAccount`: load the mapping, take the
current record for the account (or an empty object when absent or falsy),
build `{...currentTokens, ...newTokens, refresh_token: newTokens.refresh_token || currentTokens.refresh_token}`
and write the mapping back. A `refresh_token` property whose computed value
is undefined is dropped, as `JSON.stringify` omits undefined-valued
properties. An error during the load (the listener catch) leaves the file
unchanged. -/
def tokensListenerWrite (accountId : String) (newTokens : Json) (file : TokenFile) : TokenFile :=
  match loadMultiAccountTokens file with
  | .error _ => file
  | .ok (multi, _, _) =>
    let currentTokens : Json :=
      match multi.getField? accountId with
      | some v => if truthyV v then v else .obj []
      | none => .obj []
    let merged := spreadFields (fieldsOf currentTokens) (fieldsOf newTokens)
    let refreshVal : Option Json :=
      if truthy? (newTokens.getField? "refresh_token") then newTokens.getField? "refresh_token"
      else currentTokens.getField? "refresh_token"
    let updatedTokens : List (String × Json) :=
      match refreshVal with
      | some v => setStr merged "refresh_token" v
      | none => removeStr merged "refresh_token"
    TokenFile.json (setJ multi accountId (.obj updatedTokens))

/-- Embedding of `TokenManager.saveTokens`: load the mapping, build the
record `{...tokens}` (adding `cached_email` when a truthy email is given),
assign it to the current account mode wholesale, and write the mapping back.
A load error is re-thrown. -/
def saveTokens (accountMode : String) (tokens : Json) (email : Option String)
    (file : TokenFile) : Except JsError TokenFile :=
  match loadMultiAccountTokens file with
  | .error e => .error e
  | .ok (multi, _, _) =>
    let cachedTokens := fieldsOf tokens
    let cachedTokens :=
      match email with
      | some e => if e != "" then setStr cachedTokens "cached_email" (.str e) else cachedTokens
      | none => cachedTokens
    .ok (.json (setJ multi accountMode (.obj cachedTokens)))

/-- Embedding of `TokenManager.removeAccount`: lowercase the id, load the
mapping, throw when the record for the id is falsy or absent, delete the
record, unlink the file when no keys remain, otherwise write the remaining
mapping back. -/
def removeAccount (accountId : String) (file : TokenFile) : Except JsError TokenFile :=
  let normalizedId := toLowerStr accountId
  match loadMultiAccountTokens file with
  | .error e => .error e
  | .ok (multi, _, _) =>
    if !(truthy? (multi.getField? normalizedId)) then
      .error (.thrown ("Account " ++ normalizedId ++ " not found"))
    else
      let remaining := removeStr (fieldsOf multi) normalizedId
      if remaining.length == 0 then .ok .absent
      else .ok (.json (.obj remaining))

/-- Embedding of `TokenManager.migrateLegacyTokens`: copy the legacy file
into the current path, wrapping a legacy single-account shape under the
default account id; a missing or unparseable legacy file, or one whose JSON
is not an object, is skipped. Returns whether migration happened and the new
current-file state. -/
def migrateLegacyTokens (legacy : TokenFile) (file : TokenFile) : Bool × TokenFile :=
  match legacy with
  | .absent => (false, file)
  | .corrupt => (false, file)
  | .json l =>
    match l with
    | .obj _ =>
      let toSave :=
        if truthy? (l.getField? "access_token") || truthy? (l.getField? "refresh_token") then
          Json.obj [("normal", l)]
        else l
      (true, .json toSave)
    | _ => (false, file)

/-- Embedding of `TokenManager.loadSavedTokens`: when the current file is
missing, attempt legacy migration and give up when none happened; then load
the mapping and succeed exactly when the current account mode has an object
record. In the catch branch the token file is unlinked only when the error
has a `code` property other than ENOENT; a JSON SyntaxError has no `code`
property, so a corrupted file is left in place. Returns the success flag and
the resulting on-disk state. -/
def loadSavedTokens (accountMode : String) (file legacy : TokenFile) : Bool × TokenFile :=
  let step : Bool × TokenFile :=
    if file.exists? then (true, file)
    else migrateLegacyTokens legacy file
  match step with
  | (false, file1) => (false, file1)
  | (true, file1) =>
    match loadMultiAccountTokens file1 with
    | .ok (multi, file2, _) =>
      match multi.getField? accountMode with
      | some (Json.obj _) => (true, file2)
      | _ => (false, file2)
    | .error e =>
      if errHasCode e && errCode e != "ENOENT" then (false, .absent)
      else (false, file1)

/-- One queued token-file write operation: runs on the store state and
returns the resulting state together with a success flag (false models a
rejected promise). -/
def WriteOp (σ : Type) : Type := σ → σ × Bool

/-- Embedding of `TokenManager.enqueueTokenWrite`: the operation is appended
to the chain of pending writes. -/
def enqueueTokenWrite {σ : Type} (queue : List (WriteOp σ)) (op : WriteOp σ) : List (WriteOp σ) :=
  queue ++ [op]

/-- Result of letting the whole write chain settle: operations run strictly
in enqueue order, and a rejection is swallowed at the chain level (the
`.catch(() => undefined)` links), so every later operation still runs. -/
def runWriteQueue {σ : Type} (queue : List (WriteOp σ)) (s : σ) : σ :=
  queue.foldl (fun st op => (op st).1) s

/-- Temporal model of the promise chain built by `enqueueTokenWrite`. The
chain operation i is scheduled by `.then` on the chain of operation i-1 after
a `.catch(() => undefined)` link, so it starts strictly after operation i-1
settles whatever the outcome was; `outcome i` records success of operation i
and is unconstrained. `start` and `settle` give the instants at which
operation i begins executing and settles. -/
structure ChainSchedule where
  start : Nat → Nat
  settle : Nat → Nat
  outcome : Nat → Bool
  runs : ∀ i, start i < settle i
  chained : ∀ i, settle i < start (i + 1)

/-- Reserved account names from src/auth/paths.ts. -/
def RESERVED_NAMES : List String :=
  [".", "..", "con", "prn", "aux", "nul", "com1", "com2", "com3", "com4",
   "lpt1", "lpt2", "lpt3"]

/-- Character class of the account-id pattern: lowercase letters, digits,
dash, underscore. -/
def isAllowedChar (c : Char) : Bool :=
  ("a".front ≤ c && c ≤ "z".front) || ("0".front ≤ c && c ≤ "9".front) ||
    c == "-".front || c == "_".front

/-- Full-match test of the account-id regular expression, anchored, one to
sixty-four allowed characters. -/
def matchesIdPattern (s : String) : Bool :=
  1 ≤ s.length && s.length ≤ 64 && s.data.all isAllowedChar

/-- Invalid-format message from `validateAccountId`. -/
def invalidIdMsg : String :=
  "Invalid account ID. Must be 1-64 characters: lowercase letters, numbers, dashes, underscores only."

/-- Embedding of `validateAccountId` from src/auth/paths.ts: reject the empty
string, then reserved names, then anything failing the pattern. -/
def validateAccountId (accountId : String) : Except String String :=
  if accountId.length == 0 then .error invalidIdMsg
  else if RESERVED_NAMES.contains accountId then
    .error ("Account ID " ++ accountId ++ " is reserved and cannot be used.")
  else if matchesIdPattern accountId then .ok accountId
  else .error invalidIdMsg

/-- Failure raised to the MCP caller by the tool handlers. -/
inductive McpFailure where
  | invalidRequest (msg : String)
  | internalError (msg : String)

/-- Message used when no account is authenticated. -/
def noAccountsMsg : String :=
  "No authenticated accounts available. Please run authentication first using manage-accounts with action add."

/-- Message used when several accounts exist and none was specified for a
write-type operation. -/
def ambiguousAccountMsg : String :=
  "Multiple accounts available. You must specify the account parameter to indicate which account to use."

/-- Default-account branch of `BaseToolHandler.getClientForAccount`, reached
when no account id was supplied (or the supplied one was falsy): the sole
account is used when exactly one exists, otherwise the call fails asking for
explicit disambiguation. -/
def defaultAccountBranch {κ : Type} (accounts : List (String × κ)) :
    Except McpFailure (κ × String) :=
  if accounts.length == 1 then
    match accounts.head? with
    | some (accId, c) => .ok (c, accId)
    | none => .error (.invalidRequest ambiguousAccountMsg)
  else .error (.invalidRequest ambiguousAccountMsg)

/-- Embedding of `BaseToolHandler.getClientForAccount`: fail when no account
is authenticated; when a truthy account id is supplied, lowercase it,
validate it, and look it up, failing on a validation error or a missing
account; an absent or empty (falsy) id falls through to the default-account
rule. -/
def getClientForAccount {κ : Type} (accountId : Option String)
    (accounts : List (String × κ)) : Except McpFailure (κ × String) :=
  if accounts.length == 0 then .error (.invalidRequest noAccountsMsg)
  else
    match accountId with
    | some aid =>
      if aid != "" then
        let normalizedId := toLowerStr aid
        match validateAccountId normalizedId with
        | .error e => .error (.invalidRequest e)
        | .ok _ =>
          match lookupStr accounts normalizedId with
          | none => .error (.invalidRequest ("Account " ++ normalizedId ++ " not found."))
          | some c => .ok (c, normalizedId)
      else defaultAccountBranch accounts
    | none => defaultAccountBranch accounts

/-- Mailbox metadata returned by the profile fetch
(src/services/MailboxRegistry.ts). -/
structure MailboxInfo where
  accountId : String
  email : String
  messagesTotal : Option Nat
  threadsTotal : Option Nat
  historyId : Option String

/-- One cache entry of the mailbox cache: data plus fetch timestamp. -/
structure CacheEntry where
  data : List MailboxInfo
  timestamp : Nat

/-- Cache time-to-live of the mailbox registry, five minutes in
milliseconds. -/
def CACHE_TTL : Nat := 5 * 60 * 1000

/-- Mutable state of the `MailboxRegistry` singleton: the TTL cache, the
in-flight request map (cache key to the identity of the pending promise),
a counter supplying promise identities, and a count of remote fetches
issued so far (the last is a history variable for the proofs, not a field of
the class). -/
structure RegistryState where
  cache : List (String × CacheEntry)
  inFlight : List (String × Nat)
  nextPromise : Nat
  fetchCount : Nat

/-- Comma join of a string list, as by `Array.prototype.join`. -/
def joinComma : List String → String
  | [] => ""
  | [x] => x
  | x :: y :: rest => x ++ "," ++ joinComma (y :: rest)

/-- Lexicographic comparison of character lists, the order used by the
default `Array.prototype.sort` string comparison. -/
def charListLe : List Char → List Char → Bool
  | [], _ => true
  | _ :: _, [] => false
  | a :: as, b :: bs => if a = b then charListLe as bs else decide (a < b)

/-- Lexicographic string comparison as a Bool. -/
def strLeB (a b : String) : Bool :=
  charListLe a.data b.data

/-- Ordering relation of the string sort. -/
def strLe (a b : String) : Prop :=
  strLeB a b = true

instance : DecidableRel strLe := fun a b => by
  unfold strLe
  infer_instance

/-- Sorted account-id list; `Array.prototype.sort` with the default
lexicographic string comparison is modelled by insertion sort over that
order, which yields the same sorted result. -/
def sortAccountIds (ids : List String) : List String :=
  List.insertionSort strLe ids

/-- Cache key of `getMailboxes`: the sorted, comma-joined account ids. -/
def cacheKey (ids : List String) : String :=
  joinComma (sortAccountIds ids)

/-- Whether the cache holds a fresh entry for the key at the given time. -/
def cacheFresh? (st : RegistryState) (key : String) (now : Nat) : Bool :=
  match lookupStr st.cache key with
  | some e => now - e.timestamp < CACHE_TTL
  | none => false

/-- Outcome of the synchronous prefix of `getMailboxes`. -/
inductive GetMailboxesOutcome where
  | joined (promiseId : Nat)
  | cached (data : List MailboxInfo)
  | fetching (promiseId : Nat)

/-- Embedding of the synchronous prefix of `MailboxRegistry.getMailboxes`
(everything up to the first await, which runs atomically on the JavaScript
event loop): compute the cache key; an in-flight request for the key is
returned as-is; otherwise a fresh cache entry is returned; otherwise a new
remote fetch is issued, registered in the in-flight map under the key, and
counted. -/
def getMailboxesSync (ids : List String) (now : Nat) (st : RegistryState) :
    GetMailboxesOutcome × RegistryState :=
  match lookupStr st.inFlight (cacheKey ids) with
  | some p => (.joined p, st)
  | none =>
    if cacheFresh? st (cacheKey ids) now then
      match lookupStr st.cache (cacheKey ids) with
      | some e => (.cached e.data, st)
      | none => (.cached [], st)
    else
      (.fetching st.nextPromise,
        { st with
          inFlight := setStr st.inFlight (cacheKey ids) st.nextPromise
          nextPromise := st.nextPromise + 1
          fetchCount := st.fetchCount + 1 })

/-- Completion of an in-flight fetch: `fetchMailboxes` stores the results in
the cache, and the `finally` of `getMailboxes` removes the in-flight
entry. -/
def completeFetch (key : String) (data : List MailboxInfo) (now : Nat)
    (st : RegistryState) : RegistryState :=
  { st with
    cache := setStr st.cache key ⟨data, now⟩
    inFlight := removeStr st.inFlight key }

/-- Embedding of `MailboxRegistry.findAccountForMessage`: a single-account
map is returned directly without any probe; otherwise the accounts are
probed sequentially (the minimal-format `messages.get` existence check,
where `probe client messageId` is true exactly when the call does not throw)
and the first account whose probe succeeds is returned; null when none
does. -/
def findAccountForMessage {κ : Type} (probe : κ → String → Bool)
    (messageId : String) (accounts : List (String × κ)) : Option (String × κ) :=
  if accounts.length == 1 then accounts.head?
  else accounts.find? (fun e => probe e.2 messageId)

/-- OAuth client credentials loaded from the keys file. -/
structure OAuthCredsInfo where
  client_id : String
  client_secret : String
  redirect_uris : List String

/-- The pending interactive flow bound to the callback server: the target
account and the flow client it will exchange the code with. -/
structure ActiveAuthSession where
  flowAccountId : String
  flowClientId : String
  flowRedirectUri : String

/-- Mutable state of `AuthServer`: the bound callback server with its pending
flow, and the armed five-minute timeout. -/
structure AuthServerState where
  server : Option ActiveAuthSession
  authTimeout : Option Nat

/-- Five-minute authentication timeout in milliseconds. -/
def AUTH_TIMEOUT_MS : Nat := 5 * 60 * 1000

/-- Error message returned when an interactive session is already active. -/
def alreadyRunningMsg : String :=
  "Authentication server is already running. Please complete the current authentication or wait for it to timeout."

/-- Callback URL bound by the local listener. -/
def mkCallbackUrl (port : Nat) : String :=
  "http://localhost:" ++ toString port ++ "/oauth2callback"

/-- Authorization URL generated for the flow client, requesting offline
access and forced consent. -/
def generateAuthUrl (clientId redirectUri : String) : String :=
  "https://accounts.google.com/o/oauth2/v2/auth?client_id=" ++ clientId ++
    "&redirect_uri=" ++ redirectUri ++ "&access_type=offline&prompt=consent"

/-- Result of `AuthServer.startForMcpTool`. -/
inductive AuthStartOutcome where
  | ok (authUrl : String) (callbackUrl : String)
  | err (msg : String)

/-- Embedding of `AuthServer.startForMcpTool`: when a server is already
bound, fail immediately with the already-running message and touch nothing;
otherwise load credentials (failure is returned as an error), create the
flow client, generate the authorization URL and start the callback server.
`startCallbackServer` assigns the server field and arms the timeout
synchronously inside the promise executor, so even when the listen fails
with a port-in-use rejection those fields remain set. -/
def startForMcpTool (accountId : String) (port : Nat)
    (credsResult : Except String OAuthCredsInfo) (listenOk : Bool)
    (st : AuthServerState) : AuthStartOutcome × AuthServerState :=
  match st.server with
  | some _ => (.err alreadyRunningMsg, st)
  | none =>
    match credsResult with
    | .error e => (.err e, st)
    | .ok creds =>
      let callbackUrl := mkCallbackUrl port
      let session : ActiveAuthSession := ⟨accountId, creds.client_id, callbackUrl⟩
      if listenOk then
        (.ok (generateAuthUrl creds.client_id callbackUrl) callbackUrl,
          ⟨some session, some AUTH_TIMEOUT_MS⟩)
      else
        (.err ("Port " ++ toString port ++ " is already in use. Please try again later or use a different port."),
          ⟨some session, some AUTH_TIMEOUT_MS⟩)

/-- Concrete schedule of a two-operation write chain, used to instantiate
the queue-ordering theorem: operation i starts at time 2i and settles at
2i+1, and every operation fails. -/
def sampleChain : ChainSchedule where
  start := fun i => 2 * i
  settle := fun i => 2 * i + 1
  outcome := fun _ => false
  runs := by
    intro i
    simp only []
    omega
  chained := by
    intro i
    simp only []
    omega

theorem lookupStr_setStr_self {α : Type} (l : List (String × α)) (k : String) (v : α) :
    lookupStr (setStr l k v) k = some v := by
  induction l with
  | nil => simp [setStr, lookupStr]
  | cons hd tl ih =>
    obtain ⟨k2, v2⟩ := hd
    by_cases h : k2 = k
    · simp [setStr, h, lookupStr]
    · simp [setStr, h, lookupStr, ih]

theorem lookupStr_removeStr_ne {α : Type} (l : List (String × α)) (k0 k : String)
    (h : k ≠ k0) : lookupStr (removeStr l k0) k = lookupStr l k := by
  induction l with
  | nil => simp [removeStr, lookupStr]
  | cons hd tl ih =>
    obtain ⟨k2, v2⟩ := hd
    by_cases h2 : k2 = k0
    · subst h2
      have hne : ¬ (k2 = k) := fun hk => h (hk.symm)
      simp [removeStr, lookupStr, hne] at ih ⊢
      exact ih
    · by_cases h3 : k2 = k
      · subst h3
        simp [removeStr, lookupStr, h2]
      · simp [removeStr, lookupStr, h2, h3] at ih ⊢
        exact ih

theorem find?_split {α : Type} (p : α → Bool) :
    ∀ (l : List α) (x : α), l.find? p = some x →
      ∃ l₁ l₂, l = l₁ ++ x :: l₂ ∧ p x = true ∧ ∀ y ∈ l₁, p y = false := by
  intro l
  induction l with
  | nil =>
    intro x h
    simp [List.find?] at h
  | cons a as ih =>
    intro x h
    by_cases hp : p a = true
    · rw [List.find?_cons_of_pos _ hp] at h
      obtain rfl : a = x := by injection h
      exact ⟨[], as, by simp, hp, by simp⟩
    · have hp2 : p a = false := by
        simpa using hp
      rw [List.find?_cons_of_neg _ (by simp [hp2])] at h
      obtain ⟨l₁, l₂, heq, hx, hall⟩ := ih x h
      refine ⟨a :: l₁, l₂, by simp [heq], hx, ?_⟩
      intro y hy
      rcases List.mem_cons.mp hy with rfl | hmem
      · exact hp2
      · exact hall y hmem

theorem runWriteQueue_append {σ : Type} (q₁ q₂ : List (WriteOp σ)) (s : σ) :
    runWriteQueue (q₁ ++ q₂) s = runWriteQueue q₂ (runWriteQueue q₁ s) := by
  simp [runWriteQueue, List.foldl_append]

theorem chainSchedule_settle_lt_start (cs : ChainSchedule) :
    ∀ i j, i < j → cs.settle i < cs.start j := by
  intro i j
  induction j with
  | zero =>
    intro h
    exact absurd h (Nat.not_lt_zero i)
  | succ j ih =>
    intro h
    rcases Nat.lt_succ_iff_lt_or_eq.mp h with h2 | rfl
    · exact lt_trans (ih h2) (lt_trans (cs.runs j) (cs.chained j))
    · exact cs.chained i

theorem charListLe_total : ∀ as bs : List Char, charListLe as bs = true ∨ charListLe bs as = true := by
  intro as
  induction as with
  | nil =>
    intro bs
    left
    rfl
  | cons a as ih =>
    intro bs
    cases bs with
    | nil =>
      right
      rfl
    | cons b bs =>
      by_cases hab : a = b
      · subst hab
        simpa [charListLe] using ih bs
      · rcases lt_or_gt_of_ne hab with h | h
        · left
          simp [charListLe, hab, h]
        · right
          have hba : ¬ (b = a) := fun hb => hab hb.symm
          simp [charListLe, hba, h]

theorem charListLe_trans : ∀ as bs cs : List Char,
    charListLe as bs = true → charListLe bs cs = true → charListLe as cs = true := by
  intro as
  induction as with
  | nil =>
    intro bs cs _ _
    rfl
  | cons a as ih =>
    intro bs cs h1 h2
    cases bs with
    | nil => simp [charListLe] at h1
    | cons b bs =>
      cases cs with
      | nil => simp [charListLe] at h2
      | cons c cs =>
        by_cases hab : a = b
        · subst hab
          by_cases hac : a = c
          · subst hac
            simp [charListLe] at h1 h2 ⊢
            exact ih bs cs h1 h2
          · simp [charListLe, hac] at h2 ⊢
            exact h2
        · by_cases hbc : b = c
          · subst hbc
            by_cases hac : a = b
            · exact absurd hac hab
            · simpa [charListLe, hab] using h1
          · simp [charListLe, hab] at h1
            simp [charListLe, hbc] at h2
            have hac : a < c := lt_trans h1 h2
            simp [charListLe, ne_of_lt hac, hac]

theorem charListLe_antisymm : ∀ as bs : List Char,
    charListLe as bs = true → charListLe bs as = true → as = bs := by
  intro as
  induction as with
  | nil =>
    intro bs _ h2
    cases bs with
    | nil => rfl
    | cons b bs => simp [charListLe] at h2
  | cons a as ih =>
    intro bs h1 h2
    cases bs with
    | nil => simp [charListLe] at h1
    | cons b bs =>
      by_cases hab : a = b
      · subst hab
        simp [charListLe] at h1 h2
        rw [ih bs h1 h2]
      · have hba : ¬ (b = a) := fun hb => hab hb.symm
        simp [charListLe, hab] at h1
        simp [charListLe, hba] at h2
        exact absurd h2 (not_lt_of_gt h1)

instance : IsTotal String strLe where
  total := by
    intro a b
    exact charListLe_total a.data b.data

instance : IsTrans String strLe where
  trans := by
    intro a b c h1 h2
    exact charListLe_trans a.data b.data c.data h1 h2

instance : IsAntisymm String strLe where
  antisymm := by
    intro a b h1 h2
    exact String.ext (charListLe_antisymm a.data b.data h1 h2)

theorem sortAccountIds_perm (ids₁ ids₂ : List String) (h : ids₁.Perm ids₂) :
    sortAccountIds ids₁ = sortAccountIds ids₂ := by
  refine List.eq_of_perm_of_sorted ?_ (List.sorted_insertionSort strLe ids₁)
    (List.sorted_insertionSort strLe ids₂)
  exact ((List.perm_insertionSort strLe ids₁).trans h).trans
    (List.perm_insertionSort strLe ids₂).symm

theorem cacheKey_perm (ids₁ ids₂ : List String) (h : ids₁.Perm ids₂) :
    cacheKey ids₁ = cacheKey ids₂ := by
  unfold cacheKey
  rw [sortAccountIds_perm ids₁ ids₂ h]

theorem reserved_names_short : ∀ r ∈ RESERVED_NAMES, r.length ≤ 4 := by
  decide

/-- Claim C2: every operation put through the token-write queue starts only
after every previously enqueued operation has settled (so no two execute
concurrently), an appended operation runs on the state produced by the whole
queue before it (it observes all earlier writes), and an operation that
fails in the middle of the queue does not prevent the operations enqueued
after it from executing, since the chain swallows failures. -/
theorem tokenWriteQueue_ordered {σ : Type} (cs : ChainSchedule) (i j : Nat) (hij : i < j)
    (q₁ q₂ : List (WriteOp σ)) (op : WriteOp σ) (s : σ) :
    cs.settle i < cs.start j ∧
    runWriteQueue (enqueueTokenWrite q₁ op) s = (op (runWriteQueue q₁ s)).1 ∧
    runWriteQueue (q₁ ++ op :: q₂) s = runWriteQueue q₂ (op (runWriteQueue q₁ s)).1 := by
  refine ⟨chainSchedule_settle_lt_start cs i j hij, ?_, ?_⟩
  · simp [enqueueTokenWrite, runWriteQueue, List.foldl_append]
  · have h : q₁ ++ op :: q₂ = (q₁ ++ [op]) ++ q₂ := by
      simp
    rw [h, runWriteQueue_append, runWriteQueue_append]
    rfl

/-- Witness for claim C2 at a concrete two-operation queue over Nat states,
whose first operation fails. -/
theorem tokenWriteQueue_ordered_witness :
    sampleChain.settle 0 < sampleChain.start 1 ∧
    runWriteQueue (enqueueTokenWrite [fun n => (n + 1, false)] (fun n => (n * 2, true))) 3 =
      ((fun (n : Nat) => (n * 2, true)) (runWriteQueue [fun n => (n + 1, false)] 3)).1 ∧
    runWriteQueue ([fun n => (n + 1, false)] ++ (fun (n : Nat) => (n * 2, true)) :: []) 3 =
      runWriteQueue [] ((fun (n : Nat) => (n * 2, true)) (runWriteQueue [fun n => (n + 1, false)] 3)).1 :=
  tokenWriteQueue_ordered sampleChain 0 1 (by decide)
    [fun n => (n + 1, false)] [] (fun n => (n * 2, true)) 3

/-- Claim C5: the specification says a load on a file that fails to parse
deletes the file and falls back to the empty state. The code does not: a
JSON SyntaxError carries no code property, so the unlink guard in the
loadSavedTokens catch branch is never taken for a parse error; the load
returns false while leaving the corrupt file in place, and a later load
still throws the parse error instead of yielding an empty mapping. -/
theorem corruptTokenFile_not_deleted :
    loadSavedTokens "normal" .corrupt .absent = (false, .corrupt) ∧
    loadMultiAccountTokens .corrupt = .error .parseError ∧
    errHasCode .parseError = false :=
  ⟨rfl, rfl, rfl⟩

/-- Claim C9: starting the interactive authorization flow while a session is
already active fails immediately with the already-running error and leaves
the whole server state, its bound listener, timeout and pending flow,
unchanged, whatever the credentials or the port situation are. -/
theorem authStart_failsFast_whenRunning (accountId : String) (port : Nat)
    (credsResult : Except String OAuthCredsInfo) (listenOk : Bool)
    (st : AuthServerState) (s : ActiveAuthSession) (h : st.server = some s) :
    startForMcpTool accountId port credsResult listenOk st = (.err alreadyRunningMsg, st) := by
  obtain ⟨srv, t⟩ := st
  cases srv with
  | none => simp at h
  | some s2 => rfl

/-- Witness for claim C9 at a concrete active session. -/
theorem authStart_failsFast_whenRunning_witness :
    startForMcpTool "work" 3000 (Except.error "no creds") true
      ⟨some ⟨"other", "cid", "url"⟩, some 5⟩ =
      (.err alreadyRunningMsg, ⟨some ⟨"other", "cid", "url"⟩, some 5⟩) :=
  authStart_failsFast_whenRunning "work" 3000 (Except.error "no creds") true
    ⟨some ⟨"other", "cid", "url"⟩, some 5⟩ ⟨"other", "cid", "url"⟩ rfl

/-- Claim C10: a single-account map passed to findAccountForMessage is
returned directly, whatever the probe would say, so the not-found result is
never produced for a single-account map. -/
theorem findAccountForMessage_single_shortcut {κ : Type} (probe : κ → String → Bool)
    (messageId : String) (a : String) (c : κ) :
    findAccountForMessage probe messageId [(a, c)] = some (a, c) := rfl

/-- Counterexample to claim C6 as stated: a single-account map whose account
lacks the message is still returned as the holder (no probe is consulted),
although every probe of the candidate accounts reports the item missing, so
the returned account is not one whose probe succeeded and not-found is not
returned after exhausting the candidates. -/
theorem findAccountForMessage_counterexample :
    findAccountForMessage (fun (_ : Nat) (_ : String) => false) "42" [("a", 0)] = some ("a", 0) ∧
    ∀ e ∈ [("a", (0 : Nat))], (fun (_ : Nat) (_ : String) => false) e.2 "42" = false := by
  constructor
  · rfl
  · intro e _
    rfl

/-- Counterexample to claim C8 as stated: an empty-string account id passed
to getClientForAccount is falsy, so it is treated as account-unspecified and
resolved to the sole account instead of being rejected with an
invalid-account-id error. -/
theorem emptyAccountId_not_rejected :
    getClientForAccount (some "") [("work", (0 : Nat))] = Except.ok (0, "work") := rfl

/-- Counterexample to claim C1 as stated: saveTokens replaces the stored
record wholesale, so saving an update that lacks a refresh token erases the
previously stored refresh token for that account. -/
theorem saveTokens_erases_refresh_token :
    saveTokens "normal" (Json.obj [("access_token", Json.str "new")]) none
      (TokenFile.json (Json.obj [("normal",
        Json.obj [("access_token", Json.str "old"), ("refresh_token", Json.str "r1")])])) =
      Except.ok (TokenFile.json (Json.obj [("normal", Json.obj [("access_token", Json.str "new")])])) ∧
    (Json.obj [("access_token", Json.str "new")]).getField? "refresh_token" = none :=
  ⟨rfl, rfl⟩

/-- Claim C3: loading a token file in the legacy single-account shape (a
truthy top-level access or refresh token) yields a mapping with exactly the
one default-account entry and persists the converted mapping before
returning it, and loading the converted file again returns the same mapping
without writing. -/
theorem legacyMigration_idempotent (p : Json)
    (hleg : (truthy? (p.getField? "access_token") || truthy? (p.getField? "refresh_token")) = true) :
    loadMultiAccountTokens (.json p) =
      .ok (Json.obj [("normal", p)], .json (Json.obj [("normal", p)]), true) ∧
    loadMultiAccountTokens (.json (Json.obj [("normal", p)])) =
      .ok (Json.obj [("normal", p)], .json (Json.obj [("normal", p)]), false) := by
  constructor
  · simp [loadMultiAccountTokens, hleg]
  · rfl

/-- Witness for claim C3 at a concrete legacy-shaped file. -/
theorem legacyMigration_idempotent_witness :
    loadMultiAccountTokens (.json (Json.obj [("access_token", Json.str "tok")])) =
      .ok (Json.obj [("normal", Json.obj [("access_token", Json.str "tok")])],
        .json (Json.obj [("normal", Json.obj [("access_token", Json.str "tok")])]), true) ∧
    loadMultiAccountTokens
        (.json (Json.obj [("normal", Json.obj [("access_token", Json.str "tok")])])) =
      .ok (Json.obj [("normal", Json.obj [("access_token", Json.str "tok")])],
        .json (Json.obj [("normal", Json.obj [("access_token", Json.str "tok")])]), false) :=
  legacyMigration_idempotent (Json.obj [("access_token", Json.str "tok")]) (by decide)

/-- Claim C1 (amended): for a store in the multi-account shape (no truthy
top-level access or refresh token field), when the stored record of an
account holds a refresh token and the token-refresh listener persists an
update lacking one, the resulting store still holds the previous refresh
token for that account. This merge-on-write discipline is implemented only
by the refresh listener; saveTokens replaces the record wholesale (see the
counterexample). -/
theorem refreshListener_preserves_refresh_token
    (m rec : List (String × Json)) (acct : String) (rt : Json) (newTokens : Json)
    (hsh : truthy? (lookupStr m "access_token") = false)
    (hsh2 : truthy? (lookupStr m "refresh_token") = false)
    (hrec : lookupStr m acct = some (Json.obj rec))
    (hrt : lookupStr rec "refresh_token" = some rt)
    (_hrtT : truthyV rt = true)
    (hnew : truthy? (newTokens.getField? "refresh_token") = false) :
    ∃ rec2 : List (String × Json),
      tokensListenerWrite acct newTokens (TokenFile.json (Json.obj m)) =
        TokenFile.json (Json.obj (setStr m acct (Json.obj rec2))) ∧
      lookupStr (setStr m acct (Json.obj rec2)) acct = some (Json.obj rec2) ∧
      lookupStr rec2 "refresh_token" = some rt := by
  refine ⟨setStr (spreadFields rec (fieldsOf newTokens)) "refresh_token" rt, ?_,
    lookupStr_setStr_self m acct _, lookupStr_setStr_self _ "refresh_token" rt⟩
  have hload : loadMultiAccountTokens (TokenFile.json (Json.obj m)) =
      .ok (Json.obj m, TokenFile.json (Json.obj m), false) := by
    simp [loadMultiAccountTokens, Json.getField?, hsh, hsh2]
  have hrecG : (Json.obj m).getField? acct = some (Json.obj rec) := hrec
  have hrtG : (Json.obj rec).getField? "refresh_token" = some rt := hrt
  unfold tokensListenerWrite
  rw [hload]
  simp only [hrecG, truthyV, if_true, hnew, Bool.false_eq_true, if_false, hrtG, setJ, fieldsOf]

/-- Witness for claim C1 at a concrete store, account and update. -/
theorem refreshListener_preserves_refresh_token_witness :
    ∃ rec2 : List (String × Json),
      tokensListenerWrite "work" (Json.obj [("access_token", Json.str "n")])
          (TokenFile.json (Json.obj [("work",
            Json.obj [("access_token", Json.str "o"), ("refresh_token", Json.str "r")])])) =
        TokenFile.json (Json.obj
          (setStr [("work", Json.obj [("access_token", Json.str "o"), ("refresh_token", Json.str "r")])]
            "work" (Json.obj rec2))) ∧
      lookupStr
          (setStr [("work", Json.obj [("access_token", Json.str "o"), ("refresh_token", Json.str "r")])]
            "work" (Json.obj rec2)) "work" = some (Json.obj rec2) ∧
      lookupStr rec2 "refresh_token" = some (Json.str "r") :=
  refreshListener_preserves_refresh_token
    [("work", Json.obj [("access_token", Json.str "o"), ("refresh_token", Json.str "r")])]
    [("access_token", Json.str "o"), ("refresh_token", Json.str "r")]
    "work" (Json.str "r") (Json.obj [("access_token", Json.str "n")])
    rfl rfl rfl rfl rfl rfl

/-- Claim C4: for a store in the multi-account shape, removing an account
whose (lowercased) id has a truthy stored record deletes exactly that
record, unlinks the store file when it was the last remaining account and
otherwise keeps the file with every other record unchanged, while removing
an id with no stored record fails with a not-found error. -/
theorem removeAccount_spec (m : List (String × Json)) (accountId : String)
    (hsh : truthy? (lookupStr m "access_token") = false)
    (hsh2 : truthy? (lookupStr m "refresh_token") = false) :
    (truthy? (lookupStr m (toLowerStr accountId)) = true →
      removeAccount accountId (TokenFile.json (Json.obj m)) =
        .ok (if (removeStr m (toLowerStr accountId)).length == 0 then TokenFile.absent
          else TokenFile.json (Json.obj (removeStr m (toLowerStr accountId)))) ∧
      ∀ k, k ≠ toLowerStr accountId →
        lookupStr (removeStr m (toLowerStr accountId)) k = lookupStr m k) ∧
    (truthy? (lookupStr m (toLowerStr accountId)) = false →
      ∃ msg, removeAccount accountId (TokenFile.json (Json.obj m)) =
        .error (JsError.thrown msg)) := by
  have hload : loadMultiAccountTokens (TokenFile.json (Json.obj m)) =
      .ok (Json.obj m, TokenFile.json (Json.obj m), false) := by
    simp [loadMultiAccountTokens, Json.getField?, hsh, hsh2]
  constructor
  · intro hpres
    constructor
    · unfold removeAccount
      rw [hload]
      simp only [Json.getField?, hpres, Bool.not_true, Bool.false_eq_true, if_false, fieldsOf]
      split
      · rfl
      · rfl
    · intro k hk
      exact lookupStr_removeStr_ne m (toLowerStr accountId) k hk
  · intro habs
    refine ⟨"Account " ++ toLowerStr accountId ++ " not found", ?_⟩
    unfold removeAccount
    rw [hload]
    simp only [Json.getField?, habs, Bool.not_false, if_true]

/-- Witness for claim C4 at a concrete two-account store. -/
theorem removeAccount_spec_witness :
    (truthy? (lookupStr [("a", Json.obj []), ("b", Json.obj [])] (toLowerStr "A")) = true →
      removeAccount "A" (TokenFile.json (Json.obj [("a", Json.obj []), ("b", Json.obj [])])) =
        .ok (if (removeStr [("a", Json.obj []), ("b", Json.obj [])] (toLowerStr "A")).length == 0
          then TokenFile.absent
          else TokenFile.json (Json.obj (removeStr [("a", Json.obj []), ("b", Json.obj [])] (toLowerStr "A")))) ∧
      ∀ k, k ≠ toLowerStr "A" →
        lookupStr (removeStr [("a", Json.obj []), ("b", Json.obj [])] (toLowerStr "A")) k =
          lookupStr [("a", Json.obj []), ("b", Json.obj [])] k) ∧
    (truthy? (lookupStr [("a", Json.obj []), ("b", Json.obj [])] (toLowerStr "A")) = false →
      ∃ msg, removeAccount "A" (TokenFile.json (Json.obj [("a", Json.obj []), ("b", Json.obj [])])) =
        .error (JsError.thrown msg)) :=
  removeAccount_spec [("a", Json.obj []), ("b", Json.obj [])] "A" rfl rfl

/-- Claim C6 (amended): for a map of candidate accounts that is not a
singleton, findAccountForMessage probes the accounts sequentially and
returns the first account whose probe reports the message exists, every
account probed before it having failed, and it returns not-found only when
the probe of every candidate account has failed; a singleton map is instead
returned directly without probing. -/
theorem findAccountForMessage_multi_spec {κ : Type} (probe : κ → String → Bool)
    (messageId : String) (accounts : List (String × κ))
    (hlen : accounts.length ≠ 1) :
    (∀ a c, findAccountForMessage probe messageId accounts = some (a, c) →
      ∃ pre post, accounts = pre ++ (a, c) :: post ∧ probe c messageId = true ∧
        ∀ e ∈ pre, probe e.2 messageId = false) ∧
    (findAccountForMessage probe messageId accounts = none →
      ∀ e ∈ accounts, probe e.2 messageId = false) := by
  have hcond : (accounts.length == 1) = false := by
    simpa using hlen
  constructor
  · intro a c h
    unfold findAccountForMessage at h
    rw [hcond] at h
    simp only [Bool.false_eq_true, if_false] at h
    exact find?_split _ accounts _ h
  · intro h e he
    unfold findAccountForMessage at h
    rw [hcond] at h
    simp only [Bool.false_eq_true, if_false] at h
    simpa using List.find?_eq_none.mp h e he

/-- Witness for claim C6 at a concrete two-account map where only the second
account holds the message. -/
theorem findAccountForMessage_multi_spec_witness :
    (∀ a c, findAccountForMessage (fun (c : Nat) (_ : String) => c == 1) "42"
        [("a", 0), ("b", 1)] = some (a, c) →
      ∃ pre post, [("a", 0), ("b", 1)] = pre ++ (a, c) :: post ∧
        (fun (c : Nat) (_ : String) => c == 1) c "42" = true ∧
        ∀ e ∈ pre, (fun (c : Nat) (_ : String) => c == 1) e.2 "42" = false) ∧
    (findAccountForMessage (fun (c : Nat) (_ : String) => c == 1) "42"
        [("a", 0), ("b", 1)] = none →
      ∀ e ∈ [("a", (0 : Nat)), ("b", 1)],
        (fun (c : Nat) (_ : String) => c == 1) e.2 "42" = false) :=
  findAccountForMessage_multi_spec (fun (c : Nat) (_ : String) => c == 1) "42"
    [("a", 0), ("b", 1)] (by decide)

/-- Claim C7: a getMailboxes call for an account set with no in-flight fetch
and no fresh cache entry issues exactly one remote fetch and registers it,
and a second call for the identical account set (any ordering of the same
ids) made before the first completes receives the very same pending
promise, changes nothing, and issues no further fetch. -/
theorem getMailboxes_deduplicates (ids₁ ids₂ : List String) (now₁ now₂ : Nat)
    (st : RegistryState) (hperm : ids₁.Perm ids₂)
    (hflight : lookupStr st.inFlight (cacheKey ids₁) = none)
    (hcache : cacheFresh? st (cacheKey ids₁) now₁ = false) :
    (getMailboxesSync ids₁ now₁ st).1 = GetMailboxesOutcome.fetching st.nextPromise ∧
    (getMailboxesSync ids₂ now₂ (getMailboxesSync ids₁ now₁ st).2).1 =
      GetMailboxesOutcome.joined st.nextPromise ∧
    (getMailboxesSync ids₂ now₂ (getMailboxesSync ids₁ now₁ st).2).2 =
      (getMailboxesSync ids₁ now₁ st).2 ∧
    ((getMailboxesSync ids₁ now₁ st).2).fetchCount = st.fetchCount + 1 := by
  have hkey : cacheKey ids₂ = cacheKey ids₁ :=
    (cacheKey_perm ids₁ ids₂ hperm).symm
  have h1 : getMailboxesSync ids₁ now₁ st =
      (GetMailboxesOutcome.fetching st.nextPromise,
        { st with
          inFlight := setStr st.inFlight (cacheKey ids₁) st.nextPromise
          nextPromise := st.nextPromise + 1
          fetchCount := st.fetchCount + 1 }) := by
    unfold getMailboxesSync
    rw [hflight, hcache]
    rfl
  rw [h1]
  have h2 : getMailboxesSync ids₂ now₂
      { st with
        inFlight := setStr st.inFlight (cacheKey ids₁) st.nextPromise
        nextPromise := st.nextPromise + 1
        fetchCount := st.fetchCount + 1 } =
      (GetMailboxesOutcome.joined st.nextPromise,
        { st with
          inFlight := setStr st.inFlight (cacheKey ids₁) st.nextPromise
          nextPromise := st.nextPromise + 1
          fetchCount := st.fetchCount + 1 }) := by
    unfold getMailboxesSync
    rw [hkey]
    rw [lookupStr_setStr_self]
  rw [h2]
  exact ⟨rfl, rfl, rfl, rfl⟩

/-- Witness for claim C7 at a concrete empty registry and a permuted account
set. -/
theorem getMailboxes_deduplicates_witness :
    (getMailboxesSync ["b", "a"] 0 ⟨[], [], 7, 0⟩).1 = GetMailboxesOutcome.fetching 7 ∧
    (getMailboxesSync ["a", "b"] 5 (getMailboxesSync ["b", "a"] 0 ⟨[], [], 7, 0⟩).2).1 =
      GetMailboxesOutcome.joined 7 ∧
    (getMailboxesSync ["a", "b"] 5 (getMailboxesSync ["b", "a"] 0 ⟨[], [], 7, 0⟩).2).2 =
      (getMailboxesSync ["b", "a"] 0 ⟨[], [], 7, 0⟩).2 ∧
    ((getMailboxesSync ["b", "a"] 0 ⟨[], [], 7, 0⟩).2).fetchCount = 0 + 1 :=
  getMailboxes_deduplicates ["b", "a"] ["a", "b"] 0 5 ⟨[], [], 7, 0⟩ (by decide) rfl rfl

/-- Claim C8 (amended): validateAccountId rejects every string that is
empty, longer than sixty-four characters, contains a character outside
lowercase letters, digits, dash and underscore, or is a reserved name; and
when a handler is given a nonempty account id whose lowercased form fails
validation, getClientForAccount returns that validation error for every
nonempty account map, before any account lookup. An empty-string id is falsy
and is instead treated as account-unspecified (see the counterexample). -/
theorem validation_rejects {κ : Type} (s t : String) (e : String)
    (hinv : s = "" ∨ 64 < s.length ∨ (∃ c ∈ s.data, isAllowedChar c = false) ∨
      s ∈ RESERVED_NAMES)
    (ht : t ≠ "")
    (hv : validateAccountId (toLowerStr t) = .error e) :
    (∃ msg, validateAccountId s = .error msg) ∧
    ∀ accounts : List (String × κ), accounts ≠ [] →
      getClientForAccount (some t) accounts = .error (.invalidRequest e) := by
  constructor
  · by_cases hlen : (s.length == 0) = true
    · exact ⟨invalidIdMsg, by simp [validateAccountId, hlen]⟩
    · by_cases hres : s ∈ RESERVED_NAMES
      · refine ⟨"Account ID " ++ s ++ " is reserved and cannot be used.", ?_⟩
        have hc : (RESERVED_NAMES.contains s) = true := List.elem_eq_true_of_mem hres
        unfold validateAccountId
        rw [if_neg hlen, if_pos hc]
      · have hc : (RESERVED_NAMES.contains s) = false := by
          simpa using hres
        have hpat : matchesIdPattern s = false := by
          rcases hinv with rfl | hbig | ⟨c, hcmem, hcbad⟩ | hmem
          · simp at hlen
          · have h64 : ¬ (s.length ≤ 64) := by
              omega
            simp [matchesIdPattern, h64]
          · have hall : s.data.all isAllowedChar = false := by
              rcases Bool.eq_false_or_eq_true (s.data.all isAllowedChar) with h | h
              · have := List.all_eq_true.mp h c hcmem
                rw [hcbad] at this
                exact absurd this (by simp)
              · exact h
            simp [matchesIdPattern, hall]
          · exact absurd hmem hres
        refine ⟨invalidIdMsg, ?_⟩
        unfold validateAccountId
        rw [if_neg hlen, if_neg (by simpa using hres), if_neg (by simp [hpat])]
  · intro accounts hacc
    have hlen0 : (accounts.length == 0) = false := by
      simp only [beq_eq_false_iff_ne, ne_eq, List.length_eq_zero]
      exact hacc
    have htb : (t != "") = true := by
      simpa using ht
    unfold getClientForAccount
    rw [hlen0]
    simp only [Bool.false_eq_true, if_false, htb, if_true, hv]

/-- Witness for claim C8 at the reserved name con and the malformed id
Work!. -/
theorem validation_rejects_witness :
    (∃ msg, validateAccountId "con" = Except.error msg) ∧
    ∀ accounts : List (String × Nat), accounts ≠ [] →
      getClientForAccount (some "Work!") accounts = Except.error (.invalidRequest invalidIdMsg) :=
  validation_rejects "con" "Work!" invalidIdMsg
    (Or.inr (Or.inr (Or.inr (by decide)))) (by decide) rfl

end GmailMcp
